import Mathlib

/-!
Verification of the instagram-rss post-normalization layer.

Python strings are modeled as `List Char` (with `String` wrappers at the
module boundaries), JSON/float numbers as exact decimals (`Dec`),
Unix timestamps as `Nat`
(epoch-onward), and the local timezone of `datetime.fromtimestamp` as UTC.
Each definition is a direct translation of the corresponding Python
function in `src/`.
-/

namespace InstaRss

/-- Python regex `\w` (word character), restricted to the ASCII range the
exports use: letter, digit or underscore. -/
def isWordChar (c : Char) : Bool :=
  c.isAlpha || c.isDigit || c = '_'

/-- Python regex `\s` / `str.strip` whitespace, ASCII range. -/
def isSpaceC (c : Char) : Bool :=
  c = ' ' || c = '\t' || c = '\n' || c = '\r'

/-- ASCII lowercasing, modeling Python `str.lower` on the ASCII range. -/
def asciiLower (c : Char) : Char :=
  if 'A' ≤ c ∧ c ≤ 'Z' then Char.ofNat (c.toNat + 32) else c

/-- Python `str.strip()`: drop leading and trailing whitespace. -/
def trim (l : List Char) : List Char :=
  ((l.dropWhile isSpaceC).reverse.dropWhile isSpaceC).reverse

/-! ### Encoding repair (`InstagramJSONParser._fix_encoding`) -/

/-- `str.encode('latin-1')`: each code point below 256 becomes one byte;
any higher code point raises `UnicodeEncodeError` (modeled as `none`). -/
def encodeLatin1 (l : List Char) : Option (List Nat) :=
  if l.all (fun c => c.toNat < 256) then some (l.map Char.toNat) else none

/-- `bytes.decode('utf-8')` (strict): UTF-8 decoding with rejection of
continuation errors, overlong forms, surrogates and out-of-range values. -/
def decodeUtf8 : List Nat → Option (List Char)
  | [] => some []
  | b :: bs =>
    if b < 0x80 then
      (decodeUtf8 bs).map (fun r => Char.ofNat b :: r)
    else if 0xC2 ≤ b ∧ b ≤ 0xDF then
      match bs with
      | b1 :: bs1 =>
        if 0x80 ≤ b1 ∧ b1 ≤ 0xBF then
          (decodeUtf8 bs1).map (fun r => Char.ofNat ((b - 0xC0) * 64 + (b1 - 0x80)) :: r)
        else none
      | _ => none
    else if 0xE0 ≤ b ∧ b ≤ 0xEF then
      match bs with
      | b1 :: b2 :: bs2 =>
        if 0x80 ≤ b1 ∧ b1 ≤ 0xBF ∧ 0x80 ≤ b2 ∧ b2 ≤ 0xBF then
          let cp := (b - 0xE0) * 4096 + (b1 - 0x80) * 64 + (b2 - 0x80)
          if 0x800 ≤ cp ∧ ¬(0xD800 ≤ cp ∧ cp ≤ 0xDFFF) then
            (decodeUtf8 bs2).map (fun r => Char.ofNat cp :: r)
          else none
        else none
      | _ => none
    else if 0xF0 ≤ b ∧ b ≤ 0xF4 then
      match bs with
      | b1 :: b2 :: b3 :: bs3 =>
        if 0x80 ≤ b1 ∧ b1 ≤ 0xBF ∧ 0x80 ≤ b2 ∧ b2 ≤ 0xBF ∧ 0x80 ≤ b3 ∧ b3 ≤ 0xBF then
          let cp := (b - 0xF0) * 262144 + (b1 - 0x80) * 4096 + (b2 - 0x80) * 64 + (b3 - 0x80)
          if 0x10000 ≤ cp ∧ cp ≤ 0x10FFFF then
            (decodeUtf8 bs3).map (fun r => Char.ofNat cp :: r)
          else none
        else none
      | _ => none
    else none

/-- `InstagramJSONParser._fix_encoding`: reinterpret Latin-1-decoded bytes
as UTF-8; on any failure keep the original text. -/
def fix_encoding (text : String) : String :=
  if text = "" then text
  else
    match encodeLatin1 text.data with
    | none => text
    | some bytes =>
      match decodeUtf8 bytes with
      | some chars => String.mk chars
      | none => text

/-! ### Hashtag extraction
(`InstagramJSONParser._extract_hashtags`, `RSSGenerator._extract_hashtags`) -/

/-- Whether a char list starts with a word character. -/
def headIsWord : List Char → Bool
  | [] => false
  | d :: _ => isWordChar d

/-- Whether a char list contains `#` immediately followed by a word
character, i.e. whether `re.findall(r'#(\w+)', ·)` finds anything. -/
def hasTag : List Char → Bool
  | [] => false
  | [_] => false
  | c :: d :: rest => (c = '#' && isWordChar d) || hasTag (d :: rest)

/-- `re.findall(r'#(\w+)', text)`, fuel-indexed: captured word-runs
after `#`, leftmost non-overlapping matches, greedy `\w+`.  Every step
consumes at least one character, so `s.length` fuel always suffices. -/
def findTagsF : Nat → List Char → List (List Char)
  | 0, _ => []
  | _, [] => []
  | fuel + 1, c :: rest =>
    if c = '#' ∧ headIsWord rest then
      rest.takeWhile isWordChar :: findTagsF fuel (rest.dropWhile isWordChar)
    else
      findTagsF fuel rest

/-- `re.findall(r'#(\w+)', text)`. -/
def findTags (s : List Char) : List (List Char) :=
  findTagsF s.length s

/-- One step of `re.sub(r'\s*#\w+', '', text)`: if a match of
`\s*#\w+` starts at the head of `s`, return the remainder after the
(greedy) match, else `none`. -/
def matchAt (s : List Char) : Option (List Char) :=
  match s.dropWhile isSpaceC with
  | '#' :: d :: u =>
    if isWordChar d then some ((d :: u).dropWhile isWordChar) else none
  | _ => none

/-- `re.sub(r'\s*#\w+', '', text)`, fuel-indexed: left-to-right scan,
removing each match and resuming after it.  A match removes at least two
characters and a non-match emits one, so `s.length` fuel suffices. -/
def subTagsF : Nat → List Char → List Char
  | 0, _ => []
  | _, [] => []
  | fuel + 1, c :: rest =>
    match matchAt (c :: rest) with
    | some v => subTagsF fuel v
    | none => c :: subTagsF fuel rest

/-- `re.sub(r'\s*#\w+', '', text)`. -/
def subTags (s : List Char) : List Char :=
  subTagsF s.length s

/-- Case-insensitive dedup keeping first-seen casing and order
(the `seen` set loop shared by both extractors). -/
def dedupeCI (seen : List (List Char)) : List (List Char) → List (List Char)
  | [] => []
  | t :: ts =>
    let lo := t.map asciiLower
    if lo ∈ seen then dedupeCI seen ts else t :: dedupeCI (lo :: seen) ts

/-- `InstagramJSONParser._extract_hashtags`: returns cleaned text and the
deduplicated hashtag list. -/
def extract_hashtags (text : String) : String × List String :=
  if text = "" then (text, [])
  else
    let unique_hashtags := dedupeCI [] (findTags text.data)
    let clean_text := trim (subTags text.data)
    (String.mk clean_text, unique_hashtags.map String.mk)

/-- `RSSGenerator._extract_hashtags`: hashtag list only, no cleaning. -/
def rss_extract_hashtags (text : String) : List String :=
  if text = "" then []
  else (dedupeCI [] (findTags text.data)).map String.mk

/-! ### Date formatting (`InstagramJSONParser._format_timestamp`)

`datetime.fromtimestamp` is modeled with the local timezone fixed to UTC:
the standard civil-from-days conversion of a nonnegative Unix timestamp.
Python `datetime` raises `ValueError` past year 9999, i.e. for timestamps
above `maxConvertible`. -/

/-- Gregorian leap year. -/
def isLeap (y : Nat) : Prop :=
  y % 4 = 0 ∧ (y % 100 ≠ 0 ∨ y % 400 = 0)

instance (y : Nat) : Decidable (isLeap y) := by
  unfold isLeap
  infer_instance

/-- Length of a month, as `datetime` has it. -/
def daysInMonth (y m : Nat) : Nat :=
  if m = 2 then (if isLeap y then 29 else 28)
  else if m = 4 ∨ m = 6 ∨ m = 9 ∨ m = 11 then 30
  else 31

/-- Days in a civil year. -/
def yearLength (y : Nat) : Nat :=
  if isLeap y then 366 else 365

/-- Total length of `fuel` consecutive years starting at `y`. -/
def sumLen (y : Nat) : Nat → Nat
  | 0 => 0
  | fuel + 1 => yearLength y + sumLen (y + 1) fuel

/-- Total length of `fuel` consecutive months of year `y` starting at
month `m`. -/
def sumMonths (y m : Nat) : Nat → Nat
  | 0 => 0
  | fuel + 1 => daysInMonth y m + sumMonths y (m + 1) fuel

/-- Year scan: starting at year `y` with `rem` days left, step through
whole years.  Terminates with the target year and the day of that year
whenever `rem < sumLen y fuel`. -/
def yearScan : Nat → Nat → Nat → Nat × Nat
  | 0, y, rem => (y, rem)
  | fuel + 1, y, rem =>
    if rem < yearLength y then (y, rem)
    else yearScan fuel (y + 1) (rem - yearLength y)

/-- Month scan: starting at month `m` of year `y` with `rem` days left,
step through whole months. -/
def monthScan : Nat → Nat → Nat → Nat → Nat × Nat
  | 0, _, m, rem => (m, rem)
  | fuel + 1, y, m, rem =>
    if rem < daysInMonth y m then (m, rem)
    else monthScan fuel y (m + 1) (rem - daysInMonth y m)

/-- Year, month and day reached from year `y0` after `rem` more days. -/
def civilOf (fuel y0 rem : Nat) : Nat × Nat × Nat :=
  let yr := yearScan fuel y0 rem
  let md := monthScan 12 yr.1 1 yr.2
  (yr.1, md.1, md.2 + 1)

/-- Civil date (year, month, day) of day number `z` counted from
1970-01-01, proleptic Gregorian calendar: whole 400-year cycles (146097
days each, aligned at 2000-01-01) are skipped arithmetically, the rest by
the year scan. -/
def civilFromDays (z : Nat) : Nat × Nat × Nat :=
  if z < 10957 then civilOf 30 1970 z
  else civilOf 400 (2000 + 400 * ((z - 10957) / 146097)) ((z - 10957) % 146097)

/-- Fields of a Python `datetime` value. -/
structure DateTime where
  year : Nat
  month : Nat
  day : Nat
  hour : Nat
  minute : Nat
  second : Nat
deriving DecidableEq

/-- `datetime.fromtimestamp(t)` with the local timezone modeled as UTC. -/
def fromtimestamp (t : Nat) : DateTime :=
  let c := civilFromDays (t / 86400)
  ⟨c.1, c.2.1, c.2.2, t / 3600 % 24, t / 60 % 60, t % 60⟩

/-- Largest timestamp `datetime.fromtimestamp` accepts (UTC):
9999-12-31 23:59:59. -/
def maxConvertible : Nat := 253402300799

/-- `strftime` `%b`: abbreviated month name. -/
def monthAbbrev : Nat → List Char
  | 1 => ['J', 'a', 'n']
  | 2 => ['F', 'e', 'b']
  | 3 => ['M', 'a', 'r']
  | 4 => ['A', 'p', 'r']
  | 5 => ['M', 'a', 'y']
  | 6 => ['J', 'u', 'n']
  | 7 => ['J', 'u', 'l']
  | 8 => ['A', 'u', 'g']
  | 9 => ['S', 'e', 'p']
  | 10 => ['O', 'c', 't']
  | 11 => ['N', 'o', 'v']
  | 12 => ['D', 'e', 'c']
  | _ => []

/-- `strftime` two-digit zero-padded field (`%d`, `%I`, `%H`, `%M`, `%S`),
for values below 100. -/
def pad2 (n : Nat) : List Char :=
  [Nat.digitChar (n / 10), Nat.digitChar (n % 10)]

/-- `strftime` `%Y` for four-digit years. -/
def num4 (n : Nat) : List Char :=
  [Nat.digitChar (n / 1000 % 10), Nat.digitChar (n / 100 % 10),
   Nat.digitChar (n / 10 % 10), Nat.digitChar (n % 10)]

/-- `strftime` `%I`: hour on the 12-hour clock, 12 for 0. -/
def hour12 (h : Nat) : Nat :=
  if h % 12 = 0 then 12 else h % 12

/-- `dt.strftime("%b %d, %Y %I:%M %p")`. -/
def strftimeFmt (dt : DateTime) : List Char :=
  monthAbbrev dt.month ++ ' ' :: pad2 dt.day ++ ',' :: ' ' :: num4 dt.year ++
    ' ' :: pad2 (hour12 dt.hour) ++ ':' :: pad2 dt.minute ++
    ' ' :: (if dt.hour < 12 then ['A', 'M'] else ['P', 'M'])

/-- `InstagramJSONParser._format_timestamp`: `"Unknown date"` for 0 and
for timestamps `fromtimestamp` rejects, the formatted string otherwise. -/
def format_timestamp (timestamp : Nat) : String :=
  if timestamp = 0 then "Unknown date"
  else if timestamp ≤ maxConvertible then
    String.mk (strftimeFmt (fromtimestamp timestamp))
  else "Unknown date"

/-! ### Data model of the structured-data export (`posts_1.json`) -/

/-- Exact decimal number `mantissa / 10 ^ exp10`.  It models the float
values the program stores but never computes with: JSON coordinates and
the results of `float(...)`.  Only assignment, truthiness and
representation equality occur, so exact decimals are adequate. -/
structure Dec where
  mantissa : Int
  exp10 : Nat
deriving DecidableEq

/-- One EXIF entry of a media item; absent keys are `none`. -/
structure ExifEntry where
  latitude : Option Dec
  longitude : Option Dec
deriving DecidableEq

/-- Python truthiness of `exif.get(key)`: present and nonzero. -/
def truthyO : Option Dec → Bool
  | none => false
  | some v => v.mantissa != 0

/-- One media item of a post record; `get` defaults applied
(`''` for strings, `0` for the timestamp, `[]` for the EXIF list). -/
structure MediaItem where
  title : String
  uri : String
  creation_timestamp : Nat
  exif_data : List ExifEntry
deriving DecidableEq

/-- One record of the structured-data posts array. -/
structure PostData where
  title : String
  creation_timestamp : Nat
  media : List MediaItem
deriving DecidableEq

/-- The canonical `InstagramPost` dataclass
(`src/instagram_json_parser.py`). -/
structure InstagramPost where
  title : String
  images : List String
  date : String
  timestamp : Nat
  latitude : Option Dec
  longitude : Option Dec
  tagged_users : List String
  hashtags : List String
deriving DecidableEq

/-- State of the media-scan loop in `_parse_post`. -/
structure ScanState where
  title : String
  images : List String
  latitude : Option Dec
  longitude : Option Dec
deriving DecidableEq

/-- The EXIF loop body of `_parse_post`: first truthy value wins. -/
def exifStep (acc : Option Dec × Option Dec) (e : ExifEntry) :
    Option Dec × Option Dec :=
  let la := if truthyO e.latitude && !truthyO acc.1 then e.latitude else acc.1
  let lo := if truthyO e.longitude && !truthyO acc.2 then e.longitude else acc.2
  (la, lo)

/-- The media loop body of `_parse_post`: adopt a title when still empty,
collect non-empty URIs, scan EXIF entries. -/
def mediaStep (s : ScanState) (m : MediaItem) : ScanState :=
  let title := if s.title = "" then fix_encoding m.title else s.title
  let images := if m.uri ≠ "" then s.images ++ [m.uri] else s.images
  let ll := m.exif_data.foldl exifStep (s.latitude, s.longitude)
  ⟨title, images, ll.1, ll.2⟩

/-- `InstagramJSONParser._parse_post`. -/
def parse_post (post_data : PostData) : Option InstagramPost :=
  let title := fix_encoding post_data.title
  if post_data.media.isEmpty then none
  else
    let timestamp :=
      if post_data.creation_timestamp ≠ 0 then post_data.creation_timestamp
      else ((post_data.media.head?).map (·.creation_timestamp)).getD 0
    let date := format_timestamp timestamp
    let st := post_data.media.foldl mediaStep ⟨title, [], none, none⟩
    if st.images.isEmpty then none
    else
      let ch := extract_hashtags st.title
      some ⟨ch.1, st.images, date, timestamp, st.latitude, st.longitude, [], ch.2⟩

/-- Stable descending insertion by timestamp: the element being inserted
comes from earlier in the input, so it goes before equal timestamps. -/
def insertDesc (a : InstagramPost) : List InstagramPost → List InstagramPost
  | [] => [a]
  | b :: l => if b.timestamp ≤ a.timestamp then a :: b :: l else b :: insertDesc a l

/-- `list.sort(key=..., reverse=True)`: stable sort by timestamp,
newest first. -/
def sortDesc (l : List InstagramPost) : List InstagramPost :=
  l.foldr insertDesc []

/-- `InstagramJSONParser.parse_posts` on an already-loaded posts array:
parse each record, keep the successes, sort newest-first. -/
def parse_posts (data : List PostData) : List InstagramPost :=
  sortDesc (data.filterMap parse_post)

/-! ### Feed date re-parsing (`RSSGenerator._parse_date`)

`datetime.strptime(s, "%b %d, %Y %I:%M %p")` is modeled as a
left-to-right match: abbreviated month name (case-insensitive), literal
separators, two-digit-greedy numeric fields, a four-digit year, AM/PM,
followed by the range validation `datetime` itself performs. -/

/-- Numeric value of a digit character. -/
def digitVal (c : Char) : Nat := c.toNat - 48

/-- Greedy one-or-two-digit numeric field (`%d`, `%I`, `%M`). -/
def parse2 : List Char → Option (Nat × List Char)
  | [] => none
  | [c] => if c.isDigit then some (digitVal c, []) else none
  | c1 :: c2 :: rest =>
    if c1.isDigit then
      if c2.isDigit then some (digitVal c1 * 10 + digitVal c2, rest)
      else some (digitVal c1, c2 :: rest)
    else none

/-- Exactly-four-digit numeric field (`%Y`). -/
def parse4 : List Char → Option (Nat × List Char)
  | c1 :: c2 :: c3 :: c4 :: rest =>
    if c1.isDigit ∧ c2.isDigit ∧ c3.isDigit ∧ c4.isDigit then
      some (digitVal c1 * 1000 + digitVal c2 * 100 + digitVal c3 * 10 + digitVal c4, rest)
    else none
  | _ => none

/-- Literal character in the format string. -/
def expectC (c : Char) : List Char → Option (List Char)
  | d :: rest => if d = c then some rest else none
  | [] => none

/-- Case-insensitive month-abbreviation lookup on a lowered triple. -/
def monthNum (a b c : Char) : Option Nat :=
  if a = 'j' ∧ b = 'a' ∧ c = 'n' then some 1
  else if a = 'f' ∧ b = 'e' ∧ c = 'b' then some 2
  else if a = 'm' ∧ b = 'a' ∧ c = 'r' then some 3
  else if a = 'a' ∧ b = 'p' ∧ c = 'r' then some 4
  else if a = 'm' ∧ b = 'a' ∧ c = 'y' then some 5
  else if a = 'j' ∧ b = 'u' ∧ c = 'n' then some 6
  else if a = 'j' ∧ b = 'u' ∧ c = 'l' then some 7
  else if a = 'a' ∧ b = 'u' ∧ c = 'g' then some 8
  else if a = 's' ∧ b = 'e' ∧ c = 'p' then some 9
  else if a = 'o' ∧ b = 'c' ∧ c = 't' then some 10
  else if a = 'n' ∧ b = 'o' ∧ c = 'v' then some 11
  else if a = 'd' ∧ b = 'e' ∧ c = 'c' then some 12
  else none

/-- `%b`: three-letter month abbreviation, case-insensitive. -/
def monthFromChars : List Char → Option (Nat × List Char)
  | c1 :: c2 :: c3 :: rest =>
    match monthNum (asciiLower c1) (asciiLower c2) (asciiLower c3) with
    | some m => some (m, rest)
    | none => none
  | _ => none

/-- `%p`: AM/PM marker, case-insensitive; `true` means PM. -/
def parseAmPm : List Char → Option (Bool × List Char)
  | a :: b :: rest =>
    if asciiLower a = 'a' ∧ asciiLower b = 'm' then some (false, rest)
    else if asciiLower a = 'p' ∧ asciiLower b = 'm' then some (true, rest)
    else none
  | _ => none

/-- `datetime.strptime(s, "%b %d, %Y %I:%M %p")`: full-string match plus
the field validation done when the `datetime` is constructed. -/
def strptimeFmt (s : List Char) : Option DateTime :=
  match monthFromChars s with
  | none => none
  | some (m, s) =>
  match expectC ' ' s with
  | none => none
  | some s =>
  match parse2 s with
  | none => none
  | some (d, s) =>
  match expectC ',' s with
  | none => none
  | some s =>
  match expectC ' ' s with
  | none => none
  | some s =>
  match parse4 s with
  | none => none
  | some (y, s) =>
  match expectC ' ' s with
  | none => none
  | some s =>
  match parse2 s with
  | none => none
  | some (h12, s) =>
  match expectC ':' s with
  | none => none
  | some s =>
  match parse2 s with
  | none => none
  | some (mi, s) =>
  match expectC ' ' s with
  | none => none
  | some s =>
  match parseAmPm s with
  | none => none
  | some (pm, s) =>
  if s = [] ∧ 1 ≤ y ∧ 1 ≤ d ∧ d ≤ daysInMonth y m ∧ 1 ≤ h12 ∧ h12 ≤ 12 ∧ mi ≤ 59 then
    some ⟨y, m, d, h12 % 12 + (if pm then 12 else 0), mi, 0⟩
  else none

/-- Weekday index of a civil date, Monday = 0 (`datetime.weekday`).
Uses the day-of-era of the civil-to-days conversion; whole eras are
multiples of 7 days, so the era itself does not enter. -/
def weekdayIndex (dt : DateTime) : Nat :=
  let y := dt.year - (if dt.month ≤ 2 then 1 else 0)
  let yoe := y % 400
  let mp := if 2 < dt.month then dt.month - 3 else dt.month + 9
  let doy := (153 * mp + 2) / 5 + dt.day - 1
  let doe := yoe * 365 + yoe / 4 - yoe / 100 + doy
  (doe + 2) % 7

/-- `strftime` `%a`: abbreviated weekday name, Monday = 0. -/
def weekdayAbbrev : Nat → List Char
  | 0 => ['M', 'o', 'n']
  | 1 => ['T', 'u', 'e']
  | 2 => ['W', 'e', 'd']
  | 3 => ['T', 'h', 'u']
  | 4 => ['F', 'r', 'i']
  | 5 => ['S', 'a', 't']
  | 6 => ['S', 'u', 'n']
  | _ => []

/-- `dt.strftime('%a, %d %b %Y %H:%M:%S +0000')`. -/
def rfc822 (dt : DateTime) : List Char :=
  weekdayAbbrev (weekdayIndex dt) ++ ',' :: ' ' :: pad2 dt.day ++
    ' ' :: monthAbbrev dt.month ++ ' ' :: num4 dt.year ++
    ' ' :: pad2 dt.hour ++ ':' :: pad2 dt.minute ++ ':' :: pad2 dt.second ++
    [' ', '+', '0', '0', '0', '0']

/-- `RSSGenerator._parse_date`: parse the formatter output pattern back;
empty string on any failure.  (The second `try` in the source repeats the
identical format, so a single attempt is equivalent.) -/
def parse_date (date_str : String) : String :=
  if date_str = "" then ""
  else
    match strptimeFmt date_str.data with
    | some dt => String.mk (rfc822 dt)
    | none => ""

/-! ### Page/index title truncation (`SiteGenerator._truncate_title`) -/

/-- Python `text.find(pat)`: index of the first occurrence of `pat` in
`l`, `none` when absent (Python returns -1). -/
def findSub (pat : List Char) : List Char → Option Nat
  | [] => if pat.isPrefixOf ([] : List Char) then some 0 else none
  | c :: rest =>
    if pat.isPrefixOf (c :: rest) then some 0
    else (findSub pat rest).map (· + 1)

/-- Python `x.rsplit(' ', 1)[0]`: everything before the last space, the
whole string when there is no space. -/
def cutLastSpace : List Char → List Char
  | [] => []
  | c :: rest =>
    if ' ' ∈ rest then c :: cutLastSpace rest
    else if c = ' ' then []
    else c :: rest

/-- One iteration of the sentence-delimiter loop: the first occurrence
of `delim` anywhere in `text`, used only when it lies in
`[15, maxLength]`. -/
def tryDelim (delim text : List Char) (maxLength : Nat) : Option (List Char) :=
  match findSub delim text with
  | some pos => if 15 ≤ pos ∧ pos ≤ maxLength then some (text.take (pos + 1)) else none
  | none => none

/-- `SiteGenerator._truncate_title`: smart truncation at sentence or
phrase boundaries (the page/index policy; `max_length` defaults to 60). -/
def truncate_title (text : List Char) (maxLength : Nat) : List Char :=
  if text.length ≤ maxLength then text
  else
    match tryDelim ['.', ' '] text maxLength with
    | some r => r
    | none =>
    match tryDelim ['!', ' '] text maxLength with
    | some r => r
    | none =>
    match tryDelim ['?', ' '] text maxLength with
    | some r => r
    | none =>
    let fallback :=
      if maxLength < text.length then
        cutLastSpace (text.take maxLength) ++ ['.', '.', '.']
      else text
    match findSub [',', ' '] text with
    | some pos => if 15 ≤ pos ∧ pos ≤ maxLength then text.take pos else fallback
    | none => fallback

/-- The first position in the window `[15, maxLength]` at which one of
`". "`, `"! "`, `"? "` starts.  This follows the words of the claim
("the first sentence-ending punctuation found between character 15 and
the limit inclusive"), for comparison with the source function. -/
def firstPunctInWindow (text : List Char) (maxLength : Nat) : Option Nat :=
  ((List.range (maxLength + 1)).filter (fun p =>
    15 ≤ p ∧ (['.', ' '].isPrefixOf (text.drop p) ∨
              ['!', ' '].isPrefixOf (text.drop p) ∨
              ['?', ' '].isPrefixOf (text.drop p)))).head?

/-- The first position in the window `[15, maxLength]` at which `", "`
starts; claim-side definition. -/
def firstCommaInWindow (text : List Char) (maxLength : Nat) : Option Nat :=
  ((List.range (maxLength + 1)).filter (fun p =>
    15 ≤ p ∧ [',', ' '].isPrefixOf (text.drop p))).head?

/-- The truncation function as the claim describes it: cut at the first
sentence-ending punctuation found inside the `[15, maxLength]` window,
else at the first `", "` inside the window, else last-space fallback. -/
def truncate_title_claim (text : List Char) (maxLength : Nat) : List Char :=
  if text.length ≤ maxLength then text
  else
    match firstPunctInWindow text maxLength with
    | some pos => text.take (pos + 1)
    | none =>
    match firstCommaInWindow text maxLength with
    | some pos => text.take pos
    | none => cutLastSpace (text.take maxLength) ++ ['.', '.', '.']

/-! ### Image copying (`SiteGenerator._copy_post_images`) -/

/-- `Path.name` of a relative path: the final path component. -/
def baseName (s : String) : String :=
  ((s.splitOn "/").getLast?).getD s

/-- `InstagramParser.get_full_image_path`: prepend the export directory. -/
def get_full_image_path (export_dir relative_path : String) : String :=
  export_dir ++ "/" ++ relative_path

/-- `SiteGenerator._copy_post_images`: filters the post images by source
existence, rewrites each kept path to `../images/<name>`, and stores the
new list back into the post (in Python, by mutating `post.images`).
`file_exists` stands for the filesystem query `src_path.exists()`. -/
def copy_post_images (export_dir : String) (file_exists : String → Bool)
    (post : InstagramPost) : InstagramPost :=
  let new_image_paths := post.images.foldl (fun acc img =>
    let src_path := get_full_image_path export_dir img
    if !file_exists src_path then acc
    else acc ++ ["../images/" ++ baseName src_path]) []
  { post with images := new_image_paths }

/-! ### Markup (HTML) parser (`src/instagram_parser.py`) -/

/-- Python `float(value)` on the common decimal forms: optional
surrounding whitespace, optional sign, digits with optional fraction
and optional exponent.  (The `inf`/`nan`/underscore forms `float`
also accepts do not occur in coordinate cells and are not modeled.) -/
def parseFloat (s : List Char) : Option Dec :=
  let l := trim s
  let neg := l.head? = some '-'
  let l1 := if l.head? = some '-' ∨ l.head? = some '+' then l.drop 1 else l
  let ip := l1.takeWhile Char.isDigit
  let l2 := l1.dropWhile Char.isDigit
  let l3 := if l2.head? = some '.' then l2.drop 1 else l2
  let fp := l3.takeWhile Char.isDigit
  let rest := l3.dropWhile Char.isDigit
  if ip = [] ∧ fp = [] then none
  else
    let digitsVal : Nat := (ip ++ fp).foldl (fun a c => a * 10 + digitVal c) 0
    let mant : Int := if neg then -(digitsVal : Int) else (digitsVal : Int)
    match rest with
    | [] => some ⟨mant, fp.length⟩
    | e :: rest1 =>
      if e = 'e' ∨ e = 'E' then
        let eneg := rest1.head? = some '-'
        let rest2 := if rest1.head? = some '-' ∨ rest1.head? = some '+'
          then rest1.drop 1 else rest1
        let ed := rest2.takeWhile Char.isDigit
        if ed = [] ∨ rest2.dropWhile Char.isDigit ≠ [] then none
        else
          let ev : Nat := ed.foldl (fun a c => a * 10 + digitVal c) 0
          if eneg then some ⟨mant, fp.length + ev⟩
          else some ⟨mant * (10 : Int) ^ ev, fp.length⟩
      else none

/-- One `<tr>` of a location table: the `_a6-q` div texts of its cells
(`none` when a cell has no such div). -/
structure HtmlRow where
  cells : List (Option String)
deriving DecidableEq

/-- The `InstagramPost` dataclass of the markup parser
(`src/instagram_parser.py`); it has no `timestamp` field. -/
structure MarkupPost where
  title : String
  images : List String
  date : String
  latitude : Option Dec
  longitude : Option Dec
  tagged_users : List String
  hashtags : List String
deriving DecidableEq

/-- One post block (`div.pam ...uiBoxWhite`) of the markup document:
optional title element text, optional date element text, optional
content div with the `src` attribute of each `img`, and the location
tables. -/
structure PostBlock where
  title : Option String
  dateText : Option String
  content : Option (List (Option String))
  tables : List (List HtmlRow)
deriving DecidableEq

/-- Label/value pair of a row, when the row has at least two cells and
both carry a `_a6-q` div: the stripped texts. -/
def rowEntry (row : HtmlRow) : Option (String × String) :=
  match row.cells with
  | c0 :: c1 :: _ =>
    match c0, c1 with
    | some lt, some vt => some (String.mk (trim lt.data), String.mk (trim vt.data))
    | _, _ => none
  | _ => none

/-- The location-row loop body of `_parse_post_div`: a numeric value
under an exactly-matching label overwrites the coordinate, a non-numeric
one is silently ignored. -/
def rowStep (acc : Option Dec × Option Dec) (row : HtmlRow) :
    Option Dec × Option Dec :=
  match rowEntry row with
  | none => acc
  | some lv =>
    if lv.1 = "Latitude" ∧ lv.2 ≠ "" then
      match parseFloat lv.2.data with
      | some v => (some v, acc.2)
      | none => acc
    else if lv.1 = "Longitude" ∧ lv.2 ≠ "" then
      match parseFloat lv.2.data with
      | some v => (acc.1, some v)
      | none => acc
    else acc

/-- The `<img>` scan of `_parse_post_div`: sources of the content div
images, skipping missing and empty `src` attributes. -/
def blockImages (b : PostBlock) : List String :=
  match b.content with
  | none => []
  | some imgs => imgs.filterMap (fun o =>
      match o with
      | some src => if src ≠ "" then some src else none
      | none => none)

/-- All location-table rows of a block, document order. -/
def allRows (b : PostBlock) : List HtmlRow :=
  b.tables.flatten

/-- Spec-side reading of one location row: the parsed coordinate value
carried by a row whose label is exactly `lbl` and whose value is
non-empty and numeric. -/
def coordVal (lbl : String) (row : HtmlRow) : Option Dec :=
  match rowEntry row with
  | none => none
  | some lv => if lv.1 = lbl ∧ lv.2 ≠ "" then parseFloat lv.2.data else none

/-- `InstagramParser._parse_post_div`. -/
def parse_post_div (b : PostBlock) : Option MarkupPost :=
  let title := b.title.getD ""
  let date := b.dateText.getD ""
  let images := blockImages b
  let ll := b.tables.foldl (fun acc rows => rows.foldl rowStep acc) (none, none)
  if images.isEmpty ∧ title = "" then none
  else some ⟨title, images, date, ll.1, ll.2, [], []⟩

/-! ### Feed selection (`generate_site.py`, `main`) -/

/-- Ascending insertion for `sorted`. -/
def insertAsc (a : Int) : List Int → List Int
  | [] => [a]
  | b :: l => if a ≤ b then a :: b :: l else b :: insertAsc a l

/-- `sorted(set(raw))`: distinct indices in ascending order. -/
def sortedDedup (raw : List Int) : List Int :=
  (raw.eraseDups).foldr insertAsc []

/-- Python `posts[i]` on an `int` index: negative indices count from the
end, out-of-range raises `IndexError` (modeled as `none`). -/
def pyIndex {α : Type} (l : List α) (i : Int) : Option α :=
  if 0 ≤ i then l.get? i.toNat
  else if 0 ≤ i + l.length then l.get? (i + l.length).toNat
  else none

/-- The selection logic of `generate_site.main`: `sel = none` models an
absent `selected_posts.json`, `some raw` its parsed array.  A `none`
result models the `IndexError` a negative in-range-checked index would
raise. -/
def selectedPosts {α : Type} (posts : List α) (sel : Option (List Int)) :
    Option (List α) :=
  match sel with
  | none => some posts
  | some raw =>
    let selected_indices := sortedDedup raw
    if selected_indices.isEmpty then some posts
    else
      (selected_indices.filter (fun i => i < (posts.length : Int))).mapM (pyIndex posts)

/-! ### Concrete inputs used by the witness theorems -/

/-- A record with one valid media URI and a hashtagged title. -/
def W1 : PostData :=
  ⟨"Hello #world", 100, [⟨"", "a.jpg", 0, []⟩, ⟨"", "", 0, []⟩]⟩

/-- The post `parse_post` produces from `W1`. -/
def Q1 : InstagramPost :=
  ⟨"Hello", ["a.jpg"], "Jan 01, 1970 12:01 AM", 100, none, none, [], ["world"]⟩

/-- A record whose media items carry several EXIF entries with truthy
coordinates in different positions. -/
def W6 : PostData :=
  ⟨"", 50,
   [⟨"", "x.jpg", 0, [⟨none, some ⟨9, 0⟩⟩, ⟨some ⟨15, 1⟩, none⟩]⟩,
    ⟨"", "", 0, [⟨some ⟨99, 0⟩, some ⟨100, 0⟩⟩]⟩]⟩

/-- The post `parse_post` produces from `W6`. -/
def P6 : InstagramPost :=
  ⟨"", ["x.jpg"], "Jan 01, 1970 12:00 AM", 50, some ⟨15, 1⟩, some ⟨9, 0⟩, [], []⟩

/-- A markup block with a title and no images. -/
def W7 : PostBlock :=
  ⟨some "Holiday", some "Jan 01, 2020", none, []⟩

/-- A post whose images are existing relative paths. -/
def P8 : InstagramPost :=
  ⟨"Hello", ["media/posts/a.jpg"], "Jan 01, 1970 12:01 AM", 100, none, none, [], []⟩

/-- A markup block with two numeric `Latitude` rows, a later non-numeric
one, and one `Longitude` row. -/
def B10 : PostBlock :=
  ⟨some "Trip", some "Aug 22, 2025", some [some "img/a.jpg"],
   [[⟨[some "Latitude", some " 1.0 "]⟩, ⟨[some "Latitude", some "2.5"]⟩],
    [⟨[some "Latitude", some "abc"]⟩, ⟨[some "Longitude", some "7"]⟩]]⟩

/-- The post `parse_post_div` produces from `B10`. -/
def P10 : MarkupPost :=
  ⟨"Trip", ["img/a.jpg"], "Aug 22, 2025", some ⟨25, 1⟩, some ⟨7, 0⟩, [], []⟩

/-- Text longer than 60 characters whose first `". "` sits before
character 15 while another `". "` sits inside the `[15, 60]` window. -/
def ceText : List Char :=
  "Hi. This sentence continues for a while longer. aaaa bbbb cccc dddd".data

/-- A 90-character text whose first `". "` is at position 30. -/
def ex90 : List Char :=
  List.replicate 30 'a' ++ '.' :: ' ' :: List.replicate 58 'b'

/-! ## Theorems -/

/-- C7: a markup post block produces no Post if and only if it has no
extracted image sources and no title; a block with a title and zero image
sources produces exactly one Post whose images list is empty. -/
theorem c7_markup_block_kept_iff (b : PostBlock) :
    (parse_post_div b = none ↔ blockImages b = [] ∧ b.title.getD "" = "") ∧
    (b.title.getD "" ≠ "" → blockImages b = [] →
      ∃ post, parse_post_div b = some post ∧ post.images = []) := by
  unfold parse_post_div
  by_cases hc : (blockImages b).isEmpty ∧ b.title.getD "" = ""
  · rw [if_pos hc]
    refine ⟨Iff.intro (fun _ => ⟨List.isEmpty_iff.mp hc.1, hc.2⟩) (fun _ => rfl), ?_⟩
    intro ht _
    exact absurd hc.2 ht
  · rw [if_neg hc]
    refine ⟨Iff.intro (fun h => by cases h)
      (fun h => absurd ⟨List.isEmpty_iff.mpr h.1, h.2⟩ hc), ?_⟩
    intro ht himg
    exact ⟨_, rfl, himg⟩

/-- C7 witness: a block with title `"Holiday"` and no content div yields
a Post with an empty image list. -/
theorem c7_witness : ∃ post, parse_post_div W7 = some post ∧ post.images = [] :=
  (c7_markup_block_kept_iff W7).2 (by decide) (by decide)

/-- C9: an absent selection file, and one holding an empty index array,
both select the full post list for the feed. -/
theorem c9_selection_default_all {α : Type} (posts : List α) :
    selectedPosts posts none = some posts ∧
    selectedPosts posts (some []) = some posts :=
  ⟨rfl, rfl⟩

/-- `Option.elim base some` threading for `getLast?` over a cons. -/
theorem getLast?_cons_elim {α : Type} (l : List α) :
    ∀ (v : α) (a : Option α),
      ((v :: l).getLast?).elim a some = (l.getLast?).elim (some v) some := by
  induction l with
  | nil => intro v a; rfl
  | cons x xs ih =>
    intro v a
    calc ((v :: x :: xs).getLast?).elim a some
        = ((x :: xs).getLast?).elim a some := by rw [List.getLast?_cons_cons]
      _ = (xs.getLast?).elim (some x) some := ih x a
      _ = ((x :: xs).getLast?).elim (some v) some := (ih x (some v)).symm

/-- `rowStep` updates each coordinate exactly when the row carries a
parsed value for it. -/
theorem rowStep_eq (acc : Option Dec × Option Dec) (row : HtmlRow) :
    rowStep acc row =
      ((coordVal "Latitude" row).elim acc.1 some,
       (coordVal "Longitude" row).elim acc.2 some) := by
  unfold rowStep coordVal
  cases h : rowEntry row with
  | none => rfl
  | some lv =>
    dsimp only
    by_cases hla : lv.1 = "Latitude" ∧ lv.2 ≠ ""
    · have hlo : ¬(lv.1 = "Longitude" ∧ lv.2 ≠ "") := by
        rintro ⟨h1, -⟩
        rw [h1] at hla
        exact absurd hla.1 (by decide)
      simp only [if_pos hla, if_neg hlo]
      cases parseFloat lv.2.data <;> rfl
    · simp only [if_neg hla]
      by_cases hlo : lv.1 = "Longitude" ∧ lv.2 ≠ ""
      · simp only [if_pos hlo]
        cases parseFloat lv.2.data <;> rfl
      · simp only [if_neg hlo]
        rfl

/-- Folding `rowStep` over rows keeps, for each coordinate, the last
successfully parsed value, the accumulator when there is none. -/
theorem foldl_rowStep (rows : List HtmlRow) (acc : Option Dec × Option Dec) :
    rows.foldl rowStep acc =
      (((rows.filterMap (coordVal "Latitude")).getLast?).elim acc.1 some,
       ((rows.filterMap (coordVal "Longitude")).getLast?).elim acc.2 some) := by
  induction rows generalizing acc with
  | nil => simp
  | cons r rs ih =>
    rw [List.foldl_cons, ih, rowStep_eq]
    rw [List.filterMap_cons, List.filterMap_cons]
    dsimp only
    cases h : coordVal "Latitude" r <;> cases h2 : coordVal "Longitude" r <;>
      simp [getLast?_cons_elim]

/-- C10: in the markup location scan the last numeric row for a label
wins, and later non-numeric rows leave the parsed coordinate in place:
each coordinate of the produced Post is the last successfully parsed
value among its rows. -/
theorem c10_markup_last_coordinate_wins (b : PostBlock) (p : MarkupPost)
    (h : parse_post_div b = some p) :
    p.latitude = ((allRows b).filterMap (coordVal "Latitude")).getLast? ∧
    p.longitude = ((allRows b).filterMap (coordVal "Longitude")).getLast? := by
  unfold parse_post_div at h
  dsimp only at h
  have hfold : b.tables.foldl (fun acc rows => rows.foldl rowStep acc) (none, none) =
      (allRows b).foldl rowStep (none, none) := by
    unfold allRows
    rw [List.foldl_flatten]
  split at h
  · cases h
  · rw [Option.some.injEq] at h
    subst h
    rw [hfold, foldl_rowStep]
    constructor <;>
      · dsimp only
        cases List.getLast? _ <;> rfl

/-- C10 witness: with rows `Latitude " 1.0 "`, `Latitude "2.5"`,
`Latitude "abc"`, `Longitude "7"` the post carries the last numeric
latitude `2.5` and the longitude `7`. -/
theorem c10_witness :
    P10.latitude = ((allRows B10).filterMap (coordVal "Latitude")).getLast? ∧
    P10.longitude = ((allRows B10).filterMap (coordVal "Longitude")).getLast? :=
  c10_markup_last_coordinate_wins B10 P10 (by decide)

/-- C8 counterexample: Posts are not immutable after construction.  The
site generation pass `_copy_post_images` reassigns the `images` field:
on a post whose single image exists, the stored list changes from the
parser-produced source URI to the rewritten site-relative path. -/
theorem c8_counterexample :
    (copy_post_images "insta-export" (fun _ => true) P8).images ≠ P8.images := by
  decide

/-- Accumulating `foldl` with a guarded append is `filterMap`. -/
theorem foldl_guard_append {α β : Type} (f : α → Bool) (g : α → β) (l : List α) :
    ∀ acc : List β,
      l.foldl (fun acc x => if !f x then acc else acc ++ [g x]) acc =
        acc ++ l.filterMap (fun x => if f x then some (g x) else none) := by
  induction l with
  | nil => intro acc; simp
  | cons x xs ih =>
    intro acc
    rw [List.foldl_cons, ih, List.filterMap_cons]
    cases hf : f x <;> simp [hf]

/-- C8 amended: `_copy_post_images` rewrites the `images` field of the
post it is given — keeping, in order, `"../images/" ++ name` for exactly
those images whose source file exists — and leaves every other field
unchanged. -/
theorem c8_amended_copy_images_rewrites (export_dir : String)
    (file_exists : String → Bool) (p : InstagramPost) :
    (copy_post_images export_dir file_exists p).images =
      p.images.filterMap (fun img =>
        if file_exists (get_full_image_path export_dir img)
        then some ("../images/" ++ baseName (get_full_image_path export_dir img))
        else none) ∧
    (copy_post_images export_dir file_exists p).title = p.title ∧
    (copy_post_images export_dir file_exists p).date = p.date ∧
    (copy_post_images export_dir file_exists p).timestamp = p.timestamp ∧
    (copy_post_images export_dir file_exists p).latitude = p.latitude ∧
    (copy_post_images export_dir file_exists p).longitude = p.longitude ∧
    (copy_post_images export_dir file_exists p).tagged_users = p.tagged_users ∧
    (copy_post_images export_dir file_exists p).hashtags = p.hashtags := by
  refine ⟨?_, rfl, rfl, rfl, rfl, rfl, rfl, rfl⟩
  unfold copy_post_images
  rw [foldl_guard_append (fun img => file_exists (get_full_image_path export_dir img))
    (fun img => "../images/" ++ baseName (get_full_image_path export_dir img))]
  rfl

/-- `exifStep` folded over EXIF entries: a truthy accumulator never
changes; otherwise the first truthy value of each coordinate wins. -/
theorem foldl_exifStep (es : List ExifEntry) :
    ∀ acc : Option Dec × Option Dec,
      es.foldl exifStep acc =
        (if truthyO acc.1 then acc.1
         else (es.find? (fun e => truthyO e.latitude)).elim acc.1 (·.latitude),
         if truthyO acc.2 then acc.2
         else (es.find? (fun e => truthyO e.longitude)).elim acc.2 (·.longitude)) := by
  induction es with
  | nil =>
    intro acc
    simp only [List.foldl_nil, List.find?_nil]
    cases h1 : truthyO acc.1 <;> cases h2 : truthyO acc.2 <;> simp [h1, h2]
  | cons e es ih =>
    intro acc
    rw [List.foldl_cons, ih, List.find?_cons, List.find?_cons]
    unfold exifStep
    cases hle : truthyO e.latitude <;> cases hlo : truthyO e.longitude <;>
      cases ha1 : truthyO acc.1 <;> cases ha2 : truthyO acc.2 <;>
        simp [hle, hlo, ha1, ha2]

/-- Found EXIF entries carry truthy values, so once a coordinate is set
from one it stays truthy. -/
theorem find?_truthy {es : List ExifEntry} {e : ExifEntry}
    {f : ExifEntry → Option Dec} (h : es.find? (fun x => truthyO (f x)) = some e) :
    truthyO (f e) = true := by
  have := List.find?_some h
  simpa using this

/-- The media scan resolves each coordinate to the first truthy EXIF
value over the concatenated EXIF lists, in media order. -/
theorem foldl_mediaStep_coords (ms : List MediaItem) :
    ∀ s : ScanState,
      (ms.foldl mediaStep s).latitude =
        (if truthyO s.latitude then s.latitude
         else ((ms.flatMap (·.exif_data)).find? (fun e => truthyO e.latitude)).elim
           s.latitude (·.latitude)) ∧
      (ms.foldl mediaStep s).longitude =
        (if truthyO s.longitude then s.longitude
         else ((ms.flatMap (·.exif_data)).find? (fun e => truthyO e.longitude)).elim
           s.longitude (·.longitude)) := by
  induction ms with
  | nil =>
    intro s
    simp only [List.foldl_nil, List.flatMap_nil, List.find?_nil]
    constructor <;> · cases h : truthyO _ <;> simp [h]
  | cons m ms ih =>
    intro s
    rw [List.foldl_cons]
    have hms := ih (mediaStep s m)
    have hm : (mediaStep s m).latitude =
        (m.exif_data.foldl exifStep (s.latitude, s.longitude)).1 := rfl
    have hm2 : (mediaStep s m).longitude =
        (m.exif_data.foldl exifStep (s.latitude, s.longitude)).2 := rfl
    rw [foldl_exifStep] at hm hm2
    rw [List.flatMap_cons, List.find?_append, List.find?_append]
    constructor
    · rw [hms.1, hm]
      by_cases hs : truthyO s.latitude = true
      · simp [hs]
      · rw [Bool.not_eq_true] at hs
        simp only [hs, if_false, Bool.false_eq_true]
        cases hf : m.exif_data.find? (fun e => truthyO e.latitude) with
        | none => simp [hs]
        | some e =>
          have ht := find?_truthy hf
          simp [ht]
    · rw [hms.2, hm2]
      by_cases hs : truthyO s.longitude = true
      · simp [hs]
      · rw [Bool.not_eq_true] at hs
        simp only [hs, if_false, Bool.false_eq_true]
        cases hf : m.exif_data.find? (fun e => truthyO e.longitude) with
        | none => simp [hs]
        | some e =>
          have ht := find?_truthy hf
          simp [ht]

/-- C6: in the structured-data media scan, each coordinate is taken from
the first EXIF entry (media order, then entry order) with a truthy value
and never overwritten by later entries. -/
theorem c6_first_exif_wins (r : PostData) (q : InstagramPost)
    (h : parse_post r = some q) :
    q.latitude = ((r.media.flatMap (·.exif_data)).find?
      (fun e => truthyO e.latitude)).bind (·.latitude) ∧
    q.longitude = ((r.media.flatMap (·.exif_data)).find?
      (fun e => truthyO e.longitude)).bind (·.longitude) := by
  unfold parse_post at h
  dsimp only at h
  split at h
  · cases h
  · split at h
    · cases h
    · rw [Option.some.injEq] at h
      subst h
      have hc := foldl_mediaStep_coords r.media ⟨fix_encoding r.title, [], none, none⟩
      constructor
      · show (r.media.foldl mediaStep _).latitude = _
        rw [hc.1]
        cases (r.media.flatMap (·.exif_data)).find? (fun e => truthyO e.latitude) <;> rfl
      · show (r.media.foldl mediaStep _).longitude = _
        rw [hc.2]
        cases (r.media.flatMap (·.exif_data)).find? (fun e => truthyO e.longitude) <;> rfl

/-- C6 witness: with a first media item whose second EXIF entry carries
a truthy latitude and whose first carries a truthy longitude, and a later
media item carrying both, the post holds the first truthy value of each
coordinate. -/
theorem c6_witness :
    P6.latitude = ((W6.media.flatMap (·.exif_data)).find?
      (fun e => truthyO e.latitude)).bind (·.latitude) ∧
    P6.longitude = ((W6.media.flatMap (·.exif_data)).find?
      (fun e => truthyO e.longitude)).bind (·.longitude) :=
  c6_first_exif_wins W6 P6 (by decide)

/-- The media scan collects exactly the non-empty URIs, in media order. -/
theorem foldl_mediaStep_images (ms : List MediaItem) :
    ∀ s : ScanState,
      (ms.foldl mediaStep s).images =
        s.images ++ (ms.map (·.uri)).filter (fun u => u ≠ "") := by
  induction ms with
  | nil => intro s; simp
  | cons m ms ih =>
    intro s
    rw [List.foldl_cons, ih, List.map_cons, List.filter_cons]
    have hm : (mediaStep s m).images =
        if m.uri ≠ "" then s.images ++ [m.uri] else s.images := rfl
    by_cases hu : m.uri = ""
    · rw [hm, if_neg (by simp [hu])]
      simp [hu]
    · rw [hm, if_pos hu]
      simp [hu]

/-- C1: a structured-data record yields a Post iff its media list is
non-empty and some media item has a non-empty URI, and the images of the
produced Post are exactly the non-empty URIs of the media items, in
media-array order. -/
theorem c1_parse_post_images (r : PostData) :
    ((∃ q, parse_post r = some q) ↔
      r.media ≠ [] ∧ ∃ m ∈ r.media, m.uri ≠ "") ∧
    (∀ q, parse_post r = some q →
      q.images = (r.media.map (·.uri)).filter (fun u => u ≠ "")) := by
  have himg : (r.media.foldl mediaStep ⟨fix_encoding r.title, [], none, none⟩).images =
      (r.media.map (·.uri)).filter (fun u => u ≠ "") := by
    rw [foldl_mediaStep_images]
    rfl
  have hex : (r.media.map (·.uri)).filter (fun u => u ≠ "") ≠ [] ↔
      ∃ m ∈ r.media, m.uri ≠ "" := by
    rw [ne_eq, List.filter_eq_nil_iff]
    push_neg
    constructor
    · rintro ⟨u, hu, hne⟩
      obtain ⟨m, hm, rfl⟩ := List.mem_map.mp hu
      exact ⟨m, hm, by simpa using hne⟩
    · rintro ⟨m, hm, hne⟩
      exact ⟨m.uri, List.mem_map.mpr ⟨m, hm, rfl⟩, by simpa using hne⟩
  unfold parse_post
  dsimp only
  by_cases h1 : r.media.isEmpty
  · rw [if_pos h1]
    have : r.media = [] := List.isEmpty_iff.mp h1
    constructor
    · constructor
      · rintro ⟨q, hq⟩
        cases hq
      · rintro ⟨hne, -⟩
        exact absurd this hne
    · intro q hq
      cases hq
  · rw [if_neg h1]
    by_cases h2 : ((r.media.foldl mediaStep ⟨fix_encoding r.title, [], none, none⟩).images).isEmpty
    · rw [if_pos h2]
      have hfe : (r.media.map (·.uri)).filter (fun u => u ≠ "") = [] := by
        rw [← himg]
        exact List.isEmpty_iff.mp h2
      constructor
      · constructor
        · rintro ⟨q, hq⟩
          cases hq
        · rintro ⟨-, hm⟩
          exact absurd hfe (hex.mpr hm)
      · intro q hq
        cases hq
    · rw [if_neg h2]
      constructor
      · constructor
        · rintro -
          refine ⟨fun he => h1 (List.isEmpty_iff.mpr he), ?_⟩
          apply hex.mp
          intro hfe
          exact h2 (List.isEmpty_iff.mpr (himg.trans hfe))
        · rintro -
          exact ⟨_, rfl⟩
      · intro q hq
        rw [Option.some.injEq] at hq
        subst hq
        exact himg

/-- C1 witness: the record `W1` (one valid URI `"a.jpg"`, one empty URI)
yields the post `Q1` whose images are exactly `["a.jpg"]`. -/
theorem c1_witness :
    parse_post W1 = some Q1 ∧
    Q1.images = (W1.media.map (·.uri)).filter (fun u => u ≠ "") :=
  ⟨by decide, (c1_parse_post_images W1).2 Q1 (by decide)⟩

/-- Inserting into the stable descending sort is a permutation. -/
theorem insertDesc_perm (a : InstagramPost) (l : List InstagramPost) :
    (insertDesc a l).Perm (a :: l) := by
  induction l with
  | nil => exact List.Perm.refl _
  | cons b l ih =>
    unfold insertDesc
    by_cases hb : b.timestamp ≤ a.timestamp
    · rw [if_pos hb]
    · rw [if_neg hb]
      exact (List.Perm.cons b ih).trans (List.Perm.swap a b l)

/-- Membership in an insertion. -/
theorem mem_insertDesc {x a : InstagramPost} {l : List InstagramPost}
    (h : x ∈ insertDesc a l) : x = a ∨ x ∈ l := by
  have := (insertDesc_perm a l).mem_iff.mp h
  simpa using this

/-- Insertion preserves descending pairwise order. -/
theorem insertDesc_pairwise (a : InstagramPost) (l : List InstagramPost)
    (h : l.Pairwise (fun x y => y.timestamp ≤ x.timestamp)) :
    (insertDesc a l).Pairwise (fun x y => y.timestamp ≤ x.timestamp) := by
  induction l with
  | nil => simp [insertDesc]
  | cons b l ih =>
    unfold insertDesc
    rw [List.pairwise_cons] at h
    by_cases hb : b.timestamp ≤ a.timestamp
    · rw [if_pos hb]
      refine List.Pairwise.cons ?_ (List.Pairwise.cons h.1 h.2)
      intro x hx
      rcases List.mem_cons.mp hx with rfl | hx
      · omega
      · have := h.1 x hx
        omega
    · rw [if_neg hb]
      refine List.Pairwise.cons ?_ (ih h.2)
      intro x hx
      rcases mem_insertDesc hx with rfl | hx
      · omega
      · exact h.1 x hx

/-- Equal-timestamp elements keep their relative position under
insertion: filtering by a timestamp commutes with it. -/
theorem insertDesc_filter (a : InstagramPost) (l : List InstagramPost) (t : Nat) :
    (insertDesc a l).filter (fun p => p.timestamp == t) =
      if a.timestamp = t then a :: l.filter (fun p => p.timestamp == t)
      else l.filter (fun p => p.timestamp == t) := by
  induction l with
  | nil =>
    by_cases ha : a.timestamp = t
    · simp [insertDesc, ha]
    · simp [insertDesc, ha]
  | cons b l ih =>
    unfold insertDesc
    by_cases hb : b.timestamp ≤ a.timestamp
    · rw [if_pos hb]
      by_cases ha : a.timestamp = t
      · simp [ha]
      · simp [List.filter_cons, ha]
    · rw [if_neg hb]
      rw [List.filter_cons, List.filter_cons, ih]
      by_cases ha : a.timestamp = t
      · have hbne : (b.timestamp == t) = false := by
          simp only [beq_eq_false_iff_ne, ne_eq]
          omega
        simp [ha, hbne]
      · simp [ha]

/-- The sort is a permutation of its input. -/
theorem sortDesc_perm (l : List InstagramPost) : (sortDesc l).Perm l := by
  induction l with
  | nil => exact List.Perm.refl _
  | cons a l ih =>
    exact (insertDesc_perm a (sortDesc l)).trans (List.Perm.cons a ih)

/-- The sort output is descending by timestamp. -/
theorem sortDesc_pairwise (l : List InstagramPost) :
    (sortDesc l).Pairwise (fun x y => y.timestamp ≤ x.timestamp) := by
  induction l with
  | nil => simp [sortDesc]
  | cons a l ih => exact insertDesc_pairwise a (sortDesc l) ih

/-- The sort is stable: filtering by any timestamp value gives the same
sequence before and after sorting. -/
theorem sortDesc_filter (l : List InstagramPost) (t : Nat) :
    (sortDesc l).filter (fun p => p.timestamp == t) =
      l.filter (fun p => p.timestamp == t) := by
  induction l with
  | nil => rfl
  | cons a l ih =>
    show (insertDesc a (sortDesc l)).filter _ = _
    rw [insertDesc_filter, List.filter_cons, ih]
    by_cases ha : a.timestamp = t
    · simp [ha]
    · simp [ha]

/-- C4: `parse_posts` returns the per-record posts sorted by timestamp
descending, as a stable sort: it is a permutation of the parsed records
in which equal-timestamp posts retain their input relative order. -/
theorem c4_parse_posts_sorted_stable (data : List PostData) :
    (parse_posts data).Pairwise (fun x y => y.timestamp ≤ x.timestamp) ∧
    (parse_posts data).Perm (data.filterMap parse_post) ∧
    ∀ t, (parse_posts data).filter (fun p => p.timestamp == t) =
      (data.filterMap parse_post).filter (fun p => p.timestamp == t) :=
  ⟨sortDesc_pairwise _, sortDesc_perm _, fun t => sortDesc_filter _ t⟩

/-- Unfolding `hasTag` one character at a time. -/
theorem hasTag_cons (c : Char) (l : List Char) :
    hasTag (c :: l) = ((c = '#' && headIsWord l) || hasTag l) := by
  cases l <;> simp [hasTag, headIsWord]

/-- After `dropWhile isWordChar` the head is not a word character. -/
theorem headIsWord_dropWhile (l : List Char) :
    headIsWord (l.dropWhile isWordChar) = false := by
  induction l with
  | nil => rfl
  | cons c rest ih =>
    rw [List.dropWhile_cons]
    by_cases hc : isWordChar c
    · simpa [hc] using ih
    · rw [if_neg hc]
      exact Bool.eq_false_iff.mpr hc

/-- The remainder of a hashtag match starts with a non-word character. -/
theorem matchAt_some_head {s v : List Char} (h : matchAt s = some v) :
    headIsWord v = false := by
  unfold matchAt at h
  split at h
  next d u heq =>
    split at h
    · rw [Option.some.injEq] at h
      subst h
      exact headIsWord_dropWhile _
    · cases h
  next => cases h

/-- If no match starts at a `#`, the following character is not a word
character. -/
theorem matchAt_hash_none {rest : List Char} (h : matchAt ('#' :: rest) = none) :
    headIsWord rest = false := by
  cases rest with
  | nil => rfl
  | cons d u =>
    have hm : matchAt ('#' :: d :: u) =
        if isWordChar d then some ((d :: u).dropWhile isWordChar) else none := by
      unfold matchAt
      rw [show List.dropWhile isSpaceC ('#' :: d :: u) = '#' :: d :: u from by
        rw [List.dropWhile_cons]
        simp [isSpaceC]]
      rfl
    rw [hm] at h
    by_cases hd : isWordChar d
    · rw [if_pos hd] at h
      cases h
    · simpa [headIsWord] using hd

/-- Removing hashtags never makes a word character the head. -/
theorem subTagsF_head (fuel : Nat) :
    ∀ s : List Char, headIsWord s = false →
      headIsWord (subTagsF fuel s) = false := by
  induction fuel with
  | zero => intro s _; simp only [subTagsF]; rfl
  | succ fuel ih =>
    intro s h
    cases s with
    | nil => rfl
    | cons c rest =>
      simp only [subTagsF]
      cases hm : matchAt (c :: rest) with
      | some v => exact ih v (matchAt_some_head hm)
      | none => exact h

/-- The output of hashtag removal contains no hashtag. -/
theorem subTagsF_noTag (fuel : Nat) :
    ∀ s : List Char, hasTag (subTagsF fuel s) = false := by
  induction fuel with
  | zero => intro s; simp only [subTagsF]; rfl
  | succ fuel ih =>
    intro s
    cases s with
    | nil => rfl
    | cons c rest =>
      simp only [subTagsF]
      cases hm : matchAt (c :: rest) with
      | some v => exact ih v
      | none =>
        rw [hasTag_cons, ih rest]
        by_cases hc : c = '#'
        · subst hc
          rw [subTagsF_head fuel rest (matchAt_hash_none hm)]
          simp
        · simp [hc]

/-- A hashtag in a prefix survives appending. -/
theorem hasTag_append_left (x y : List Char) (h : hasTag x = true) :
    hasTag (x ++ y) = true := by
  induction x with
  | nil => cases h
  | cons c x ih =>
    rw [List.cons_append, hasTag_cons]
    rw [hasTag_cons] at h
    cases hx : hasTag x with
    | true => rw [ih hx]; simp
    | false =>
      rw [hx, Bool.or_false] at h
      have hw : headIsWord (x ++ y) = true := by
        cases x with
        | nil =>
          exfalso
          simp [headIsWord] at h
        | cons d u => simpa [headIsWord] using (Bool.and_eq_true_iff.mp h).2
      rw [hw]
      simp [(Bool.and_eq_true_iff.mp h).1]

/-- A hashtag in a suffix survives prepending. -/
theorem hasTag_append_right (x y : List Char) (h : hasTag y = true) :
    hasTag (x ++ y) = true := by
  induction x with
  | nil => simpa using h
  | cons c x ih =>
    rw [List.cons_append, hasTag_cons, ih]
    simp

/-- `strip` does not create hashtags. -/
theorem hasTag_trim {l : List Char} (h : hasTag l = false) :
    hasTag (trim l) = false := by
  by_contra hcon
  rw [Bool.not_eq_false] at hcon
  obtain ⟨b, hb⟩ := List.dropWhile_suffix (l := l) isSpaceC
  obtain ⟨a, ha⟩ := List.dropWhile_suffix (l := (l.dropWhile isSpaceC).reverse) isSpaceC
  have hl1 : l.dropWhile isSpaceC = trim l ++ a.reverse := by
    unfold trim
    calc l.dropWhile isSpaceC
        = ((l.dropWhile isSpaceC).reverse).reverse := by rw [List.reverse_reverse]
      _ = (a ++ ((l.dropWhile isSpaceC).reverse.dropWhile isSpaceC)).reverse := by rw [ha]
      _ = _ := by rw [List.reverse_append]
  have h1 : hasTag (l.dropWhile isSpaceC) = true := by
    rw [hl1]
    exact hasTag_append_left _ _ hcon
  have h2 : hasTag l = true := by
    rw [← hb]
    exact hasTag_append_right _ _ h1
  rw [h] at h2
  cases h2

/-- `findall` on hashtag-free text returns nothing. -/
theorem findTagsF_nil (fuel : Nat) :
    ∀ s : List Char, hasTag s = false → findTagsF fuel s = [] := by
  induction fuel with
  | zero => intro s _; simp only [findTagsF]
  | succ fuel ih =>
    intro s h
    cases s with
    | nil => rfl
    | cons c rest =>
      simp only [findTagsF]
      rw [hasTag_cons] at h
      rw [Bool.or_eq_false_iff] at h
      rw [if_neg ?_]
      · exact ih rest h.2
      · intro hcond
        have := h.1
        rw [hcond.1] at this
        simp [hcond.2] at this

/-- C5: hashtag extraction is idempotent on the cleaned text: running
either extractor again on the cleaned text of a first extraction yields
an empty hashtag list. -/
theorem c5_hashtag_extraction_idempotent (text : String) :
    (extract_hashtags (extract_hashtags text).1).2 = [] ∧
    rss_extract_hashtags (extract_hashtags text).1 = [] := by
  have hfind : findTags ((extract_hashtags text).1).data = [] := by
    by_cases h0 : text = ""
    · subst h0
      rfl
    · have h1 : (extract_hashtags text).1 = String.mk (trim (subTags text.data)) := by
        unfold extract_hashtags
        rw [if_neg h0]
      rw [h1]
      exact findTagsF_nil _ _ (hasTag_trim (subTagsF_noTag _ _))
  constructor
  · by_cases hX : (extract_hashtags text).1 = ""
    · conv_lhs => rw [extract_hashtags, if_pos hX]
    · conv_lhs => rw [extract_hashtags, if_neg hX]
      dsimp only
      rw [hfind]
      rfl
  · by_cases hX : (extract_hashtags text).1 = ""
    · rw [rss_extract_hashtags, if_pos hX]
    · rw [rss_extract_hashtags, if_neg hX, hfind]
      rfl

/-- C2 counterexample: the claim describes cutting at the first
sentence-ending punctuation found inside the `[15, 60]` window, but the
source checks only the first occurrence of each delimiter in the whole
text.  On a text whose first `". "` sits before position 15 while a later
`". "` sits inside the window, the two disagree: the code falls through
to the ellipsis fallback. -/
theorem c2_counterexample :
    truncate_title ceText 60 ≠ truncate_title_claim ceText 60 := by
  decide

/-- C2 amended: `_truncate_title` with limit 60 leaves text of at most 60
characters unchanged; otherwise it tries `". "`, `"! "`, `"? "` in that
order, cutting after the punctuation of the first occurrence of that
delimiter in the whole text provided that occurrence lies in `[15, 60]`
(one clause per delimiter below); failing those it cuts before the first
`", "` of the whole text when that lies in `[15, 60]`; else it cuts at
the last space before position 60 and appends an ellipsis. -/
theorem c2_amended_truncation (text : List Char) :
    (text.length ≤ 60 → truncate_title text 60 = text) ∧
    (∀ pos, 60 < text.length → findSub ['.', ' '] text = some pos →
      15 ≤ pos → pos ≤ 60 → truncate_title text 60 = text.take (pos + 1)) ∧
    (∀ pos, 60 < text.length → tryDelim ['.', ' '] text 60 = none →
      findSub ['!', ' '] text = some pos → 15 ≤ pos → pos ≤ 60 →
      truncate_title text 60 = text.take (pos + 1)) ∧
    (∀ pos, 60 < text.length →
      tryDelim ['.', ' '] text 60 = none → tryDelim ['!', ' '] text 60 = none →
      findSub ['?', ' '] text = some pos → 15 ≤ pos → pos ≤ 60 →
      truncate_title text 60 = text.take (pos + 1)) ∧
    (∀ pos, 60 < text.length →
      tryDelim ['.', ' '] text 60 = none → tryDelim ['!', ' '] text 60 = none →
      tryDelim ['?', ' '] text 60 = none →
      findSub [',', ' '] text = some pos → 15 ≤ pos → pos ≤ 60 →
      truncate_title text 60 = text.take pos) ∧
    (60 < text.length →
      tryDelim ['.', ' '] text 60 = none → tryDelim ['!', ' '] text 60 = none →
      tryDelim ['?', ' '] text 60 = none →
      (∀ pos, findSub [',', ' '] text = some pos → ¬(15 ≤ pos ∧ pos ≤ 60)) →
      truncate_title text 60 = cutLastSpace (text.take 60) ++ ['.', '.', '.']) := by
  refine ⟨?_, ?_, ?_, ?_, ?_, ?_⟩
  · intro hle
    unfold truncate_title
    rw [if_pos hle]
  · intro pos hlen hfind h15 h60
    unfold truncate_title
    rw [if_neg (by omega)]
    have ht : tryDelim ['.', ' '] text 60 = some (text.take (pos + 1)) := by
      unfold tryDelim
      simp only [hfind]
      rw [if_pos (And.intro h15 h60)]
    rw [ht]
  · intro pos hlen h1 hfind h15 h60
    unfold truncate_title
    rw [if_neg (by omega)]
    have ht : tryDelim ['!', ' '] text 60 = some (text.take (pos + 1)) := by
      unfold tryDelim
      simp only [hfind]
      rw [if_pos (And.intro h15 h60)]
    simp only [h1, ht]
  · intro pos hlen h1 h2 hfind h15 h60
    unfold truncate_title
    rw [if_neg (by omega)]
    have ht : tryDelim ['?', ' '] text 60 = some (text.take (pos + 1)) := by
      unfold tryDelim
      simp only [hfind]
      rw [if_pos (And.intro h15 h60)]
    simp only [h1, h2, ht]
  · intro pos hlen h1 h2 h3 hfind h15 h60
    unfold truncate_title
    rw [if_neg (by omega)]
    simp only [h1, h2, h3, hfind]
    rw [if_pos (And.intro h15 h60)]
  · intro hlen h1 h2 h3 hcomma
    unfold truncate_title
    rw [if_neg (by omega)]
    simp only [h1, h2, h3]
    cases hf : findSub [',', ' '] text with
    | none =>
      simp only
      rw [if_pos hlen]
    | some pos =>
      simp only
      rw [if_neg (hcomma pos hf), if_pos hlen]

/-- C2 witness for the amended claim, instantiating the spec example: a
90-character text whose first `". "` is at position 30 truncates to its
first 31 characters. -/
theorem c2_witness : truncate_title ex90 60 = ex90.take 31 :=
  (c2_amended_truncation ex90).2.1 30 (by decide) (by decide) (by decide) (by decide)

/-- The year scan ends inside a year of its window. -/
theorem yearScan_spec (fuel : Nat) :
    ∀ y rem, rem < sumLen y fuel →
      (yearScan fuel y rem).2 < yearLength (yearScan fuel y rem).1 ∧
      y ≤ (yearScan fuel y rem).1 ∧ (yearScan fuel y rem).1 < y + fuel := by
  induction fuel with
  | zero =>
    intro y rem h
    cases h
  | succ fuel ih =>
    intro y rem h
    simp only [yearScan]
    by_cases hy : rem < yearLength y
    · rw [if_pos hy]
      exact ⟨hy, Nat.le_refl y, by omega⟩
    · rw [if_neg hy]
      have hr : rem - yearLength y < sumLen (y + 1) fuel := by
        unfold sumLen at h
        omega
      obtain ⟨h1, h2, h3⟩ := ih (y + 1) (rem - yearLength y) hr
      exact ⟨h1, by omega, by omega⟩

/-- The month scan ends inside a month of its window. -/
theorem monthScan_spec (fuel : Nat) :
    ∀ y m rem, rem < sumMonths y m fuel →
      (monthScan fuel y m rem).2 < daysInMonth y (monthScan fuel y m rem).1 ∧
      m ≤ (monthScan fuel y m rem).1 ∧ (monthScan fuel y m rem).1 < m + fuel := by
  induction fuel with
  | zero =>
    intro y m rem h
    cases h
  | succ fuel ih =>
    intro y m rem h
    simp only [monthScan]
    by_cases hm : rem < daysInMonth y m
    · rw [if_pos hm]
      exact ⟨hm, Nat.le_refl m, by omega⟩
    · rw [if_neg hm]
      have hr : rem - daysInMonth y m < sumMonths y (m + 1) fuel := by
        unfold sumMonths at h
        omega
      obtain ⟨h1, h2, h3⟩ := ih y (m + 1) (rem - daysInMonth y m) hr
      exact ⟨h1, by omega, by omega⟩

/-- The twelve months of a year add up to its length. -/
theorem sumMonths_year (y : Nat) : sumMonths y 1 12 = yearLength y := by
  by_cases h : isLeap y <;>
    simp [sumMonths, daysInMonth, yearLength, h]

/-- Leap status is 400-year periodic. -/
theorem yearLength_shift (y : Nat) : yearLength (y + 400) = yearLength y := by
  have : isLeap (y + 400) ↔ isLeap y := by
    unfold isLeap
    omega
  unfold yearLength
  by_cases h : isLeap y
  · rw [if_pos h, if_pos (this.mpr h)]
  · rw [if_neg h, if_neg (fun hc => h (this.mp hc))]

/-- Year-run lengths are 400-year periodic. -/
theorem sumLen_shift (n : Nat) : ∀ y, sumLen (y + 400) n = sumLen y n := by
  induction n with
  | zero => intro y; rfl
  | succ n ih =>
    intro y
    unfold sumLen
    rw [yearLength_shift]
    have := ih (y + 1)
    rw [show y + 1 + 400 = y + 400 + 1 from by omega] at this
    rw [this]

set_option maxRecDepth 8000 in
/-- A 400-year cycle starting at a multiple of 400 past 2000 has 146097
days. -/
theorem sumLen_cycle (k : Nat) : sumLen (2000 + 400 * k) 400 = 146097 := by
  induction k with
  | zero => decide
  | succ k ih =>
    have : 2000 + 400 * (k + 1) = (2000 + 400 * k) + 400 := by omega
    rw [this, sumLen_shift, ih]

/-- Field bounds of `civilOf` when the remainder fits the window. -/
theorem civilOf_bounds (fuel y0 rem : Nat) (h : rem < sumLen y0 fuel) :
    y0 ≤ (civilOf fuel y0 rem).1 ∧ (civilOf fuel y0 rem).1 < y0 + fuel ∧
    1 ≤ (civilOf fuel y0 rem).2.1 ∧ (civilOf fuel y0 rem).2.1 ≤ 12 ∧
    1 ≤ (civilOf fuel y0 rem).2.2 ∧
    (civilOf fuel y0 rem).2.2 ≤
      daysInMonth (civilOf fuel y0 rem).1 (civilOf fuel y0 rem).2.1 := by
  obtain ⟨hy1, hy2, hy3⟩ := yearScan_spec fuel y0 rem h
  have hmrem : (yearScan fuel y0 rem).2 < sumMonths (yearScan fuel y0 rem).1 1 12 := by
    rw [sumMonths_year]
    exact hy1
  obtain ⟨hm1, hm2, hm3⟩ := monthScan_spec 12 (yearScan fuel y0 rem).1 1
    (yearScan fuel y0 rem).2 hmrem
  simp only [civilOf]
  refine ⟨hy2, hy3, hm2, by omega, by omega, by omega⟩

/-- Field bounds of the civil conversion over the convertible range. -/
theorem civilFromDays_bounds (z : Nat) (hz : z ≤ 2932896) :
    1970 ≤ (civilFromDays z).1 ∧ (civilFromDays z).1 ≤ 9999 ∧
    1 ≤ (civilFromDays z).2.1 ∧ (civilFromDays z).2.1 ≤ 12 ∧
    1 ≤ (civilFromDays z).2.2 ∧
    (civilFromDays z).2.2 ≤
      daysInMonth (civilFromDays z).1 (civilFromDays z).2.1 := by
  unfold civilFromDays
  by_cases hb : z < 10957
  · rw [if_pos hb]
    have h30 : sumLen 1970 30 = 10957 := by decide
    have := civilOf_bounds 30 1970 z (by omega)
    exact ⟨this.1, by omega, this.2.2.1, this.2.2.2.1, this.2.2.2.2.1, this.2.2.2.2.2⟩
  · rw [if_neg hb]
    have hera : (z - 10957) / 146097 ≤ 19 := by omega
    have hrem : (z - 10957) % 146097 < sumLen (2000 + 400 * ((z - 10957) / 146097)) 400 := by
      rw [sumLen_cycle]
      omega
    have := civilOf_bounds 400 (2000 + 400 * ((z - 10957) / 146097))
      ((z - 10957) % 146097) hrem
    refine ⟨by omega, by omega, this.2.2.1, this.2.2.2.1, this.2.2.2.2.1, this.2.2.2.2.2⟩

/-- Field bounds of `fromtimestamp` over the convertible range. -/
theorem fromtimestamp_bounds (t : Nat) (ht : t ≤ maxConvertible) :
    1970 ≤ (fromtimestamp t).year ∧ (fromtimestamp t).year ≤ 9999 ∧
    1 ≤ (fromtimestamp t).month ∧ (fromtimestamp t).month ≤ 12 ∧
    1 ≤ (fromtimestamp t).day ∧
    (fromtimestamp t).day ≤ daysInMonth (fromtimestamp t).year (fromtimestamp t).month ∧
    (fromtimestamp t).hour ≤ 23 ∧ (fromtimestamp t).minute ≤ 59 := by
  have hz : t / 86400 ≤ 2932896 := by
    unfold maxConvertible at ht
    omega
  have hc := civilFromDays_bounds (t / 86400) hz
  simp only [fromtimestamp]
  refine ⟨hc.1, hc.2.1, hc.2.2.1, hc.2.2.2.1, hc.2.2.2.2.1, hc.2.2.2.2.2, by omega, by omega⟩

/-- Digits print to digit characters with the same value. -/
theorem digitChar_spec : ∀ k < 10,
    (Nat.digitChar k).isDigit = true ∧ digitVal (Nat.digitChar k) = k := by
  decide

/-- The greedy two-digit field reads back a zero-padded two-digit
number. -/
theorem parse2_pad2 (n : Nat) (hn : n < 100) (rest : List Char) :
    parse2 (pad2 n ++ rest) = some (n, rest) := by
  have h1 := digitChar_spec (n / 10) (by omega)
  have h2 := digitChar_spec (n % 10) (by omega)
  show parse2 (Nat.digitChar (n / 10) :: Nat.digitChar (n % 10) :: rest) = _
  simp only [parse2]
  rw [if_pos h1.1, if_pos h2.1, h1.2, h2.2]
  rw [Option.some.injEq, Prod.mk.injEq]
  exact ⟨by omega, rfl⟩

/-- The four-digit year field reads back `num4`. -/
theorem parse4_num4 (y : Nat) (hy : y < 10000) (rest : List Char) :
    parse4 (num4 y ++ rest) = some (y, rest) := by
  have h1 := digitChar_spec (y / 1000 % 10) (by omega)
  have h2 := digitChar_spec (y / 100 % 10) (by omega)
  have h3 := digitChar_spec (y / 10 % 10) (by omega)
  have h4 := digitChar_spec (y % 10) (by omega)
  show parse4 (Nat.digitChar (y / 1000 % 10) :: Nat.digitChar (y / 100 % 10) ::
    Nat.digitChar (y / 10 % 10) :: Nat.digitChar (y % 10) :: rest) = _
  simp only [parse4]
  rw [if_pos (show _ ∧ _ ∧ _ ∧ _ from ⟨h1.1, h2.1, h3.1, h4.1⟩), h1.2, h2.2, h3.2, h4.2]
  rw [Option.some.injEq, Prod.mk.injEq]
  exact ⟨by omega, rfl⟩

/-- Month abbreviations parse back to their month number. -/
theorem monthFromChars_abbrev (m : Nat) (h1 : 1 ≤ m) (h2 : m ≤ 12)
    (rest : List Char) :
    monthFromChars (monthAbbrev m ++ rest) = some (m, rest) := by
  interval_cases m <;> rfl

/-- The AM/PM round trip recovers the 24-hour value. -/
theorem hour12_roundtrip : ∀ h < 24,
    (if h < 12 then hour12 h % 12 else hour12 h % 12 + 12) = h := by
  decide

/-- `%I` output is always between 1 and 12. -/
theorem hour12_bounds : ∀ h < 24, 1 ≤ hour12 h ∧ hour12 h ≤ 12 := by
  decide

/-- No month is longer than 31 days. -/
theorem daysInMonth_le (y m : Nat) : daysInMonth y m ≤ 31 := by
  unfold daysInMonth
  split
  · split <;> omega
  · split <;> omega

/-- Literal separators parse off the head. -/
theorem expectC_cons (c : Char) (rest : List Char) :
    expectC c (c :: rest) = some rest := by
  simp [expectC]

/-- The printed AM marker parses as AM. -/
theorem parseAmPm_AM (rest : List Char) :
    parseAmPm ('A' :: 'M' :: rest) = some (false, rest) := rfl

/-- The printed PM marker parses as PM. -/
theorem parseAmPm_PM (rest : List Char) :
    parseAmPm ('P' :: 'M' :: rest) = some (true, rest) := rfl

/-- Re-parsing a formatted date recovers the `datetime` with seconds
dropped: `strptime` is a left inverse of `strftime` on valid dates. -/
theorem strptime_strftime (dt : DateTime)
    (hy1 : 1000 ≤ dt.year) (hy2 : dt.year ≤ 9999)
    (hm1 : 1 ≤ dt.month) (hm2 : dt.month ≤ 12)
    (hd1 : 1 ≤ dt.day) (hd2 : dt.day ≤ daysInMonth dt.year dt.month)
    (hh : dt.hour ≤ 23) (hmi : dt.minute ≤ 59) :
    strptimeFmt (strftimeFmt dt) =
      some ⟨dt.year, dt.month, dt.day, dt.hour, dt.minute, 0⟩ := by
  have hd100 : dt.day < 100 := by
    have := daysInMonth_le dt.year dt.month
    omega
  have hh12 := hour12_bounds dt.hour (by omega)
  have hrt := hour12_roundtrip dt.hour (by omega)
  by_cases hampm : dt.hour < 12
  · have hmon := monthFromChars_abbrev dt.month hm1 hm2
      (' ' :: (pad2 dt.day ++ ',' :: ' ' :: (num4 dt.year ++
        ' ' :: (pad2 (hour12 dt.hour) ++ ':' :: (pad2 dt.minute ++ ' ' :: ['A', 'M'])))))
    have hday := parse2_pad2 dt.day hd100
      (',' :: ' ' :: (num4 dt.year ++
        ' ' :: (pad2 (hour12 dt.hour) ++ ':' :: (pad2 dt.minute ++ ' ' :: ['A', 'M']))))
    have hyear := parse4_num4 dt.year (by omega)
      (' ' :: (pad2 (hour12 dt.hour) ++ ':' :: (pad2 dt.minute ++ ' ' :: ['A', 'M'])))
    have hhr := parse2_pad2 (hour12 dt.hour) (by omega)
      (':' :: (pad2 dt.minute ++ ' ' :: ['A', 'M']))
    have hmin := parse2_pad2 dt.minute (by omega) (' ' :: ['A', 'M'])
    rw [if_pos hampm] at hrt
    simp only [strftimeFmt, if_pos hampm, strptimeFmt, List.cons_append,
      List.append_assoc, List.nil_append, hmon, hday, hyear, hhr, hmin,
      expectC_cons, parseAmPm_AM]
    rw [if_pos (show _ from ⟨trivial, by omega, hd1, hd2, hh12.1, hh12.2, by omega⟩)]
    simp only [Option.some.injEq, DateTime.mk.injEq]
    refine ⟨trivial, trivial, trivial, ?_, trivial, trivial⟩
    simp only [Bool.false_eq_true, if_false]
    omega
  · have hmon := monthFromChars_abbrev dt.month hm1 hm2
      (' ' :: (pad2 dt.day ++ ',' :: ' ' :: (num4 dt.year ++
        ' ' :: (pad2 (hour12 dt.hour) ++ ':' :: (pad2 dt.minute ++ ' ' :: ['P', 'M'])))))
    have hday := parse2_pad2 dt.day hd100
      (',' :: ' ' :: (num4 dt.year ++
        ' ' :: (pad2 (hour12 dt.hour) ++ ':' :: (pad2 dt.minute ++ ' ' :: ['P', 'M']))))
    have hyear := parse4_num4 dt.year (by omega)
      (' ' :: (pad2 (hour12 dt.hour) ++ ':' :: (pad2 dt.minute ++ ' ' :: ['P', 'M'])))
    have hhr := parse2_pad2 (hour12 dt.hour) (by omega)
      (':' :: (pad2 dt.minute ++ ' ' :: ['P', 'M']))
    have hmin := parse2_pad2 dt.minute (by omega) (' ' :: ['P', 'M'])
    rw [if_neg hampm] at hrt
    simp only [strftimeFmt, if_neg hampm, strptimeFmt, List.cons_append,
      List.append_assoc, List.nil_append, hmon, hday, hyear, hhr, hmin,
      expectC_cons, parseAmPm_PM]
    rw [if_pos (show _ from ⟨trivial, by omega, hd1, hd2, hh12.1, hh12.2, by omega⟩)]
    simp only [Option.some.injEq, DateTime.mk.injEq]
    refine ⟨trivial, trivial, trivial, ?_, trivial, trivial⟩
    simp only [if_true]
    omega

/-- Dropping the seconds from a timestamp only zeroes the seconds field
of its civil datetime. -/
theorem fromtimestamp_floor (t : Nat) :
    fromtimestamp (t - t % 60) =
      ⟨(fromtimestamp t).year, (fromtimestamp t).month, (fromtimestamp t).day,
       (fromtimestamp t).hour, (fromtimestamp t).minute, 0⟩ := by
  have h1 : (t - t % 60) / 86400 = t / 86400 := by omega
  have h2 : (t - t % 60) / 3600 % 24 = t / 3600 % 24 := by omega
  have h3 : (t - t % 60) / 60 % 60 = t / 60 % 60 := by omega
  have h4 : (t - t % 60) % 60 = 0 := by omega
  simp only [fromtimestamp, h1, h2, h3, h4]

/-- Month abbreviations are never empty for real months. -/
theorem monthAbbrev_ne_nil (m : Nat) (h1 : 1 ≤ m) (h2 : m ≤ 12) :
    monthAbbrev m ≠ [] := by
  interval_cases m <;> simp [monthAbbrev]

/-- The RFC-822 rendering is never the empty string. -/
theorem rfc822_ne_nil (dt : DateTime) : rfc822 dt ≠ [] := by
  unfold rfc822
  cases weekdayAbbrev (weekdayIndex dt) <;> simp

/-- C3: re-parsing the formatted date of any nonzero convertible
timestamp `t` succeeds and yields the (non-empty) RFC-822 rendering of
the datetime of `t` floored to the minute; any string the format does not
match (such as `"Unknown date"`) re-parses to the empty string. -/
theorem c3_date_roundtrip (t : Nat) (h1 : 1 ≤ t) (h2 : t ≤ maxConvertible)
    (s : String) (hs : strptimeFmt s.data = none) :
    parse_date (format_timestamp t) =
      String.mk (rfc822 (fromtimestamp (t - t % 60))) ∧
    parse_date (format_timestamp t) ≠ "" ∧
    parse_date s = "" := by
  have hb := fromtimestamp_bounds t h2
  have hfmt : format_timestamp t = String.mk (strftimeFmt (fromtimestamp t)) := by
    unfold format_timestamp
    rw [if_neg (by omega), if_pos h2]
  have hsne : String.mk (strftimeFmt (fromtimestamp t)) ≠ "" := by
    intro hc
    have : strftimeFmt (fromtimestamp t) = [] := congrArg String.data hc
    have hmon : monthAbbrev (fromtimestamp t).month ≠ [] :=
      monthAbbrev_ne_nil _ hb.2.2.1 hb.2.2.2.1
    unfold strftimeFmt at this
    cases hcm : monthAbbrev (fromtimestamp t).month with
    | nil => exact hmon hcm
    | cons c cs =>
      rw [hcm] at this
      cases this
  have hround := strptime_strftime (fromtimestamp t) (by omega) hb.2.1
    hb.2.2.1 hb.2.2.2.1 hb.2.2.2.2.1 hb.2.2.2.2.2.1 hb.2.2.2.2.2.2.1
    hb.2.2.2.2.2.2.2
  have hmain : parse_date (format_timestamp t) =
      String.mk (rfc822 (fromtimestamp (t - t % 60))) := by
    rw [hfmt]
    unfold parse_date
    rw [if_neg hsne]
    have hdata : (String.mk (strftimeFmt (fromtimestamp t))).data =
        strftimeFmt (fromtimestamp t) := rfl
    rw [hdata, hround, fromtimestamp_floor]
  refine ⟨hmain, ?_, ?_⟩
  · rw [hmain]
    intro hc
    exact rfc822_ne_nil _ (congrArg String.data hc)
  · unfold parse_date
    by_cases hse : s = ""
    · rw [if_pos hse]
    · rw [if_neg hse, hs]

/-- C3 witness: the timestamp 1755850680 (2025-08-22 08:18:00 UTC)
formats to `"Aug 22, 2025 08:18 AM"`, which re-parses to
`"Fri, 22 Aug 2025 08:18:00 +0000"`; the sentinel `"Unknown date"`
re-parses to the empty string. -/
theorem c3_witness :
    parse_date (format_timestamp 1755850680) =
      String.mk (rfc822 (fromtimestamp (1755850680 - 1755850680 % 60))) ∧
    parse_date (format_timestamp 1755850680) ≠ "" ∧
    parse_date "Unknown date" = "" ∧
    parse_date (format_timestamp 1755850680) = "Fri, 22 Aug 2025 08:18:00 +0000" :=
  ⟨(c3_date_roundtrip 1755850680 (by decide) (by decide) "Unknown date" (by decide)).1,
   (c3_date_roundtrip 1755850680 (by decide) (by decide) "Unknown date" (by decide)).2.1,
   (c3_date_roundtrip 1755850680 (by decide) (by decide) "Unknown date" (by decide)).2.2,
   by decide⟩

end InstaRss
